import Mathlib

/-!
Shallow embedding of the Light Dust Content Manager core (App.tsx):
the debounced per-(record, field) write queue (`handleUpdatePost`), the
status-transition auto-publish trigger (`handleAutoPost`), the bulk
"Approve All" action, tenant login (`handleLogin`), tenant-scoped record
fetch (`fetchPosts`), the partial-update column mapping (`mapPostToDb`),
and the hashtags render/parse pair of the `DebouncedInput` wiring.
Statuses, ids and dates are strings, exactly as in the source; JS strings
of the hashtag field are modelled as `List Char` where character-level
splitting is involved.
-/

namespace LightDust

/-- A record of the `posts` table as the app sees it (types.ts `Post`);
optional source fields are carried as plain strings / lists, with the
empty string / empty list standing for the absent value, matching the
`|| ''` / `|| []` coalescing of `mapDbToPost`. -/
structure Post where
  id : String := ""
  client_id : String := ""
  title : String := ""
  date : String := ""
  status : String := ""
  imageDescription : String := ""
  imageUrl : String := ""
  mediaType : String := "image"
  generatedCaption : String := ""
  generatedHashtags : List String := []
  notes : String := ""
deriving DecidableEq, Repr

/-- A tenant of the `clients` table (types.ts `Client`), restricted to the
fields the modelled operations read. -/
structure Client where
  id : String := ""
  name : String := ""
  pin : String := ""
  brand_name : String := ""
  brand_mission : String := ""
  brand_tone : String := ""
  brand_keywords : List String := []
  late_profile_ids : List String := []
deriving DecidableEq, Repr

/-- A social account of the scheduling collaborator (lateService `LateProfile`). -/
structure LateProfile where
  id : String := ""
  platform : String := ""
deriving DecidableEq, Repr

/-- A stored row of the `posts` table, snake_case columns as in the database
schema (including `created_at`, used by the fetch ordering). -/
structure DbPost where
  id : String := ""
  client_id : String := ""
  title : String := ""
  date : String := ""
  status : String := ""
  image_description : String := ""
  image_url : String := ""
  media_type : String := "image"
  generated_caption : String := ""
  generated_hashtags : List String := []
  notes : String := ""
  created_at : String := ""
deriving DecidableEq, Repr

/-- `mapDbToPost`: map DB columns (snake_case) to app types (camelCase). -/
def mapDbToPost (dbPost : DbPost) : Post :=
  { id := dbPost.id
    client_id := dbPost.client_id
    title := dbPost.title
    date := dbPost.date
    status := dbPost.status
    imageDescription := dbPost.image_description
    imageUrl := dbPost.image_url
    mediaType := dbPost.media_type
    generatedCaption := dbPost.generated_caption
    generatedHashtags := dbPost.generated_hashtags
    notes := dbPost.notes }

/-- A `Partial<Post>` value: each app-side field either present or absent. -/
structure PostPatch where
  client_id : Option String := none
  title : Option String := none
  date : Option String := none
  status : Option String := none
  imageDescription : Option String := none
  imageUrl : Option String := none
  mediaType : Option String := none
  generatedCaption : Option String := none
  generatedHashtags : Option (List String) := none
  notes : Option String := none
deriving DecidableEq, Repr

/-- A column-wise update object sent to the record store: each DB column
either present (will be written) or absent (left untouched). -/
structure DbUpdate where
  client_id : Option String := none
  title : Option String := none
  date : Option String := none
  status : Option String := none
  image_description : Option String := none
  image_url : Option String := none
  media_type : Option String := none
  generated_caption : Option String := none
  generated_hashtags : Option (List String) := none
  notes : Option String := none
deriving DecidableEq, Repr

/-- `mapPostToDb`: map app types to DB columns; a field absent from the
patch contributes no column to the update object (the source's
`if (post.x !== undefined) dbObj.y = post.x` chain). -/
def mapPostToDb (post : PostPatch) : DbUpdate :=
  { client_id := post.client_id
    title := post.title
    date := post.date
    status := post.status
    image_description := post.imageDescription
    image_url := post.imageUrl
    media_type := post.mediaType
    generated_caption := post.generatedCaption
    generated_hashtags := post.generatedHashtags
    notes := post.notes }

/-- The raw `{ status: s }` object passed to `.update` by `handleAutoPost`
and by the Approve All click handler. -/
def statusPatch (s : String) : DbUpdate := { status := some s }

/-- Applying an update object to a stored row: present columns are
overwritten, absent columns keep their stored value. -/
def applyDbUpdate (u : DbUpdate) (row : DbPost) : DbPost :=
  { row with
    client_id := u.client_id.getD row.client_id
    title := u.title.getD row.title
    date := u.date.getD row.date
    status := u.status.getD row.status
    image_description := u.image_description.getD row.image_description
    image_url := u.image_url.getD row.image_url
    media_type := u.media_type.getD row.media_type
    generated_caption := u.generated_caption.getD row.generated_caption
    generated_hashtags := u.generated_hashtags.getD row.generated_hashtags
    notes := u.notes.getD row.notes }

/-- One single-field edit, the `(field, value)` pair handed to
`handleUpdatePost`; the constructor is the field, its argument the value. -/
inductive FieldUpdate where
  | client_id (v : String)
  | title (v : String)
  | date (v : String)
  | status (v : String)
  | imageDescription (v : String)
  | imageUrl (v : String)
  | mediaType (v : String)
  | generatedCaption (v : String)
  | generatedHashtags (v : List String)
  | notes (v : String)
deriving DecidableEq, Repr

/-- The field's name as it appears in the debounce timer key
`id-field`. -/
def fieldName : FieldUpdate → String
  | .client_id _ => "client_id"
  | .title _ => "title"
  | .date _ => "date"
  | .status _ => "status"
  | .imageDescription _ => "imageDescription"
  | .imageUrl _ => "imageUrl"
  | .mediaType _ => "mediaType"
  | .generatedCaption _ => "generatedCaption"
  | .generatedHashtags _ => "generatedHashtags"
  | .notes _ => "notes"

/-- The one-field `Partial<Post>` object `{ [field]: value }` built in the
debounce timer body. -/
def toPatch : FieldUpdate → PostPatch
  | .client_id v => { client_id := some v }
  | .title v => { title := some v }
  | .date v => { date := some v }
  | .status v => { status := some v }
  | .imageDescription v => { imageDescription := some v }
  | .imageUrl v => { imageUrl := some v }
  | .mediaType v => { mediaType := some v }
  | .generatedCaption v => { generatedCaption := some v }
  | .generatedHashtags v => { generatedHashtags := some v }
  | .notes v => { notes := some v }

/-- The spread `{ ...p, [field]: value }` of the optimistic in-memory
update. -/
def applyFieldUpdate : FieldUpdate → Post → Post
  | .client_id v, p => { p with client_id := v }
  | .title v, p => { p with title := v }
  | .date v, p => { p with date := v }
  | .status v, p => { p with status := v }
  | .imageDescription v, p => { p with imageDescription := v }
  | .imageUrl v, p => { p with imageUrl := v }
  | .mediaType v, p => { p with mediaType := v }
  | .generatedCaption v, p => { p with generatedCaption := v }
  | .generatedHashtags v, p => { p with generatedHashtags := v }
  | .notes v, p => { p with notes := v }

/-- A field value, string-valued or tag-list-valued. -/
inductive FieldVal where
  | s (v : String)
  | tags (v : List String)
deriving DecidableEq, Repr

/-- The value carried by an edit. -/
def valueOf : FieldUpdate → FieldVal
  | .client_id v => .s v
  | .title v => .s v
  | .date v => .s v
  | .status v => .s v
  | .imageDescription v => .s v
  | .imageUrl v => .s v
  | .mediaType v => .s v
  | .generatedCaption v => .s v
  | .generatedHashtags v => .tags v
  | .notes v => .s v

/-- Read a field of an in-memory record by its camelCase name. -/
def readField (f : String) (p : Post) : Option FieldVal :=
  if f = "client_id" then some (.s p.client_id)
  else if f = "title" then some (.s p.title)
  else if f = "date" then some (.s p.date)
  else if f = "status" then some (.s p.status)
  else if f = "imageDescription" then some (.s p.imageDescription)
  else if f = "imageUrl" then some (.s p.imageUrl)
  else if f = "mediaType" then some (.s p.mediaType)
  else if f = "generatedCaption" then some (.s p.generatedCaption)
  else if f = "generatedHashtags" then some (.tags p.generatedHashtags)
  else if f = "notes" then some (.s p.notes)
  else none

/-- The DB columns as an enumerated type, for frame statements. -/
inductive Column where
  | client_id
  | title
  | date
  | status
  | image_description
  | image_url
  | media_type
  | generated_caption
  | generated_hashtags
  | notes
deriving DecidableEq, Repr

/-- The column a single-field edit maps to under `mapPostToDb`. -/
def columnOf : FieldUpdate → Column
  | .client_id _ => .client_id
  | .title _ => .title
  | .date _ => .date
  | .status _ => .status
  | .imageDescription _ => .image_description
  | .imageUrl _ => .image_url
  | .mediaType _ => .media_type
  | .generatedCaption _ => .generated_caption
  | .generatedHashtags _ => .generated_hashtags
  | .notes _ => .notes

/-- The column value an edit writes. -/
def patchVal : FieldUpdate → FieldVal
  | .generatedHashtags v => .tags v
  | u => .s (match u with
    | .client_id v => v
    | .title v => v
    | .date v => v
    | .status v => v
    | .imageDescription v => v
    | .imageUrl v => v
    | .mediaType v => v
    | .generatedCaption v => v
    | .notes v => v
    | .generatedHashtags _ => "")

/-- Look up a column of an update object. -/
def DbUpdate.getCol (u : DbUpdate) : Column → Option FieldVal
  | .client_id => u.client_id.map .s
  | .title => u.title.map .s
  | .date => u.date.map .s
  | .status => u.status.map .s
  | .image_description => u.image_description.map .s
  | .image_url => u.image_url.map .s
  | .media_type => u.media_type.map .s
  | .generated_caption => u.generated_caption.map .s
  | .generated_hashtags => u.generated_hashtags.map .tags
  | .notes => u.notes.map .s

/-- Look up a column of a stored row. -/
def DbPost.getCol (row : DbPost) : Column → FieldVal
  | .client_id => .s row.client_id
  | .title => .s row.title
  | .date => .s row.date
  | .status => .s row.status
  | .image_description => .s row.image_description
  | .image_url => .s row.image_url
  | .media_type => .s row.media_type
  | .generated_caption => .s row.generated_caption
  | .generated_hashtags => .tags row.generated_hashtags
  | .notes => .s row.notes

/-- An observable side effect of a handler: a persistence write to the
record store, an external scheduling call, a console log, a blocking
`alert`, the inline storage-error banner, or a full refetch. -/
inductive Effect where
  | dbWrite (postId : String) (patch : DbUpdate)
  | scheduleCall (platforms : List (String × String)) (content : String)
      (mediaUrls : List String) (mediaType : String) (scheduledFor : String)
  | consoleLog (msg : String)
  | alertMsg (msg : String)
  | storageErrorMsg (msg : String)
  | refetch
deriving DecidableEq, Repr

/-- Count the external scheduling calls in a trace. -/
def countScheduleCalls (tr : List Effect) : Nat :=
  (tr.filter (fun e => match e with
    | .scheduleCall _ _ _ _ _ => true
    | _ => false)).length

/-- Whether an effect is a blocking alert. -/
def isAlert : Effect → Bool
  | .alertMsg _ => true
  | _ => false

/-- `posts.find(p => p.id === id)`. -/
def findPost (posts : List Post) (id : String) : Option Post :=
  posts.find? (fun p => p.id == id)

/-- The valid-media check of `handleAutoPost`: the media URL is non-empty
after trimming and is fetchable over http (not base64). -/
def hasValidMedia (post : Post) : Bool :=
  post.imageUrl != "" && post.imageUrl.trim != "" && post.imageUrl.startsWith "http"

/-- The per-platform media-mandate policy: in the source only Instagram
requires media (`p.platform === 'instagram'`). -/
def requiresMedia (platform : String) : Bool := platform == "instagram"

/-- The publish-payload composition of `handleAutoPost`: caption, then, if
any hashtags exist, a blank line and the `#`-marked tags joined by single
spaces; if the resulting content is empty, fall back to the raw image
description. -/
def buildAutoPostContent (post : Post) : String :=
  let base := post.generatedCaption
  let content :=
    if post.generatedHashtags.length > 0 then
      base ++ "\n\n" ++ String.intercalate " " (post.generatedHashtags.map (fun tag => "#" ++ tag))
    else base
  if content == "" then post.imageDescription else content

/-- The functional `setPosts(prev => prev.map(...))` that advances a
record's in-memory status. -/
def setStatus (posts : List Post) (postId : String) (s : String) : List Post :=
  posts.map (fun p => if p.id == postId then { p with status := s } else p)

/-- The auto-publish trigger `handleAutoPost`. External collaborators are
modelled by parameters: `profilesResult` is the outcome of the awaited
`getProfiles()` call (`none` = the call threw, landing in the catch), and
`scheduleSucceeds` tells whether the `schedulePost` call succeeds or
throws. Returns the effect trace and the resulting in-memory records. -/
def handleAutoPost (currentClient : Option Client) (posts : List Post)
    (postId : String) (profilesResult : Option (List LateProfile))
    (scheduleSucceeds : Bool) : List Effect × List Post :=
  match currentClient with
  | none => ([], posts)
  | some client =>
    match findPost posts postId with
    | none => ([], posts)
    | some post =>
      let clientProfileIds := client.late_profile_ids
      if clientProfileIds.length == 0 then
        ([.consoleLog "No social profiles assigned to this client for auto-scheduling"], posts)
      else
        let content := buildAutoPostContent post
        match profilesResult with
        | none => ([.consoleLog "Auto-schedule error"], posts)
        | some allProfiles =>
          let clientProfiles := allProfiles.filter (fun p => clientProfileIds.contains p.id)
          let hasInstagram := clientProfiles.any (fun p => requiresMedia p.platform)
          if hasInstagram && !hasValidMedia post then
            ([.consoleLog "Skipping auto-schedule: Instagram requires media but post has no valid image or video"], posts)
          else
            let scheduledFor := post.date ++ "T12:00:00"
            let platforms := clientProfiles.map (fun profile => (profile.platform, profile.id))
            let mediaUrls := if hasValidMedia post then [post.imageUrl] else []
            let mediaType := if post.mediaType == "" then "image" else post.mediaType
            if scheduleSucceeds then
              ([.scheduleCall platforms content mediaUrls mediaType scheduledFor,
                .consoleLog "Auto-scheduled post",
                .dbWrite postId (statusPatch "Posted")],
               setStatus posts postId "Posted")
            else
              ([.scheduleCall platforms content mediaUrls mediaType scheduledFor,
                .consoleLog "Auto-schedule error"], posts)

/-- The pending debounced write for one `(record, field)` timer key: the
captured record id, edit, and the synchronously computed
status-transition flag. -/
structure PendingWrite where
  postId : String
  update : FieldUpdate
  isStatusChange : Bool
deriving DecidableEq, Repr

/-- The eligibility comparison of `handleUpdatePost`, evaluated
synchronously at edit time against the pre-edit in-memory records:
`field === 'status' && value === 'Approved' && currentPost?.status !== 'Approved'`. -/
def isStatusChange (posts : List Post) (id : String) : FieldUpdate → Bool
  | .status v =>
      v == "Approved" &&
        (match findPost posts id with
         | some p => !(p.status == "Approved")
         | none => true)
  | _ => false

/-- The optimistic in-memory update
`setPosts(prev => prev.map(p => p.id === id ? { ...p, [field]: value } : p))`. -/
def optimisticUpdate (posts : List Post) (id : String) (u : FieldUpdate) : List Post :=
  posts.map (fun p => if p.id == id then applyFieldUpdate u p else p)

/-- The debounce timer key `` `${id}-${field}` ``. -/
def timerKey (id : String) (u : FieldUpdate) : String := id ++ "-" ++ fieldName u

/-- The `debounceTimers` ref: at most one pending write per key. -/
abbrev TimerMap := List (String × PendingWrite)

/-- A DB failure reported by the record store on a write. -/
inductive DbError where
  | payloadTooLarge
  | other
deriving DecidableEq, Repr

/-- The part of the debounce timer body after the awaited persistence
write: the error branch (alert for an oversized image payload, storage
banner otherwise, then a forced refetch), or, on success, the
status-transition trigger when the captured flag is set and a tenant is
selected. -/
def timerBodyRest (currentClient : Option Client)
    (profilesResult : Option (List LateProfile)) (dbResult : Option DbError)
    (scheduleSucceeds : Bool) (posts : List Post) (pw : PendingWrite) :
    List Effect × List Post :=
  match dbResult with
  | some e =>
    let errEffs : List Effect :=
      if fieldName pw.update == "imageUrl" && e == DbError.payloadTooLarge then
        [.alertMsg "The image is too large to save to the database. Please try a smaller file."]
      else
        [.storageErrorMsg "Failed to save changes. Please check your connection."]
    (.consoleLog "Error updating post" :: errEffs ++ [.refetch], posts)
  | none =>
    if pw.isStatusChange && currentClient.isSome then
      handleAutoPost currentClient posts pw.postId profilesResult scheduleSucceeds
    else
      ([], posts)

/-- A debounce timer firing: the single persistence write
`update(mapPostToDb({ [field]: value })).eq('id', id)` for the captured
key, followed by the rest of the timer body. -/
def fireTimer (currentClient : Option Client)
    (profilesResult : Option (List LateProfile)) (dbResult : Option DbError)
    (scheduleSucceeds : Bool) (posts : List Post) (pw : PendingWrite) :
    List Effect × List Post :=
  let r := timerBodyRest currentClient profilesResult dbResult scheduleSucceeds posts pw
  (.dbWrite pw.postId (mapPostToDb (toPatch pw.update)) :: r.1, r.2)

/-- The synchronous part of one `handleUpdatePost` call: compute the
status-transition flag from the pre-edit records, apply the optimistic
in-memory update, cancel any pending timer for the same `(record, field)`
key and arm a fresh one carrying this edit. -/
def editStep (id : String) (st : List Post × TimerMap) (u : FieldUpdate) :
    List Post × TimerMap :=
  let isc := isStatusChange st.1 id u
  let posts2 := optimisticUpdate st.1 id u
  let key := timerKey id u
  let timers2 := (key, PendingWrite.mk id u isc) :: st.2.filter (fun e => !(e.1 == key))
  (posts2, timers2)

/-- A burst of `handleUpdatePost` calls to the same record, each arriving
before the previous 500 ms quiet period elapses, so that no timer fires
in between. -/
def processEdits (id : String) (st : List Post × TimerMap)
    (us : List FieldUpdate) : List Post × TimerMap :=
  us.foldl (editStep id) st

/-- The persistence writes issued once the quiet period elapses: each
surviving timer's body issues exactly one write, keyed by its captured
record id and carrying its captured single-field patch. -/
def coalescedWrites (id : String) (posts : List Post)
    (us : List FieldUpdate) : List (String × DbUpdate) :=
  ((processEdits id (posts, []) us).2).map
    (fun e => (e.2.postId, mapPostToDb (toPatch e.2.update)))

/-- The complete flow of a single status edit in one session: the
synchronous part of `handleUpdatePost`, then (after the quiet period) the
one armed timer firing. -/
def runStatusEdit (currentClient : Option Client)
    (profilesResult : Option (List LateProfile)) (dbResult : Option DbError)
    (scheduleSucceeds : Bool) (posts : List Post) (id : String)
    (value : String) : List Effect × List Post :=
  let u := FieldUpdate.status value
  let isc := isStatusChange posts id u
  let posts2 := optimisticUpdate posts id u
  fireTimer currentClient profilesResult dbResult scheduleSucceeds posts2
    (PendingWrite.mk id u isc)

/-- The Approve All click handler: after the confirm dialog, one direct
`update({ status: 'Approved' })` per visible record (independent,
unordered writes via `Promise.all`), then a refetch. It does not go
through `handleUpdatePost`, so no status-transition trigger runs. -/
def approveAllClick (filteredPosts : List Post) (confirmAccepted : Bool) :
    List Effect :=
  if confirmAccepted then
    (filteredPosts.map (fun post => Effect.dbWrite post.id (statusPatch "Approved")))
      ++ [.refetch]
  else []

/-- The outcome of `handleLogin`: no session, an all-tenant master session
(with the tenant-selection list shown), or a session scoped to one
tenant. -/
inductive LoginResult where
  | failed
  | master (allClients : List Client)
  | scoped (client : Client)
deriving DecidableEq, Repr

/-- The `eq('pin', passwordInput)` lookup: exact string equality against
the stored secret. -/
def lookupByPin (clientsTable : List Client) (pin : String) : List Client :=
  clientsTable.filter (fun c => c.pin == pin)

/-- Insertion into a sorted list (modelling the store's `order by`). -/
def insertSorted (le : α → α → Bool) (a : α) : List α → List α
  | [] => [a]
  | b :: bs => if le a b then a :: b :: bs else b :: insertSorted le a bs

/-- Insertion sort (modelling the store's `order by`). -/
def sortBy (le : α → α → Bool) : List α → List α
  | [] => []
  | a :: as => insertSorted le a (sortBy le as)

/-- The master branch's `order('name')` over all tenants. -/
def sortClientsByName (cs : List Client) : List Client :=
  sortBy (fun a b => a.name ≤ b.name) cs

/-- `handleLogin`: look up the tenants whose stored pin equals the
submitted secret exactly; none → authentication failure, and the
distinguished secret `1991` → master session over all tenants, otherwise
a session scoped to the first (unique) matching tenant. -/
def handleLogin (clientsTable : List Client) (passwordInput : String) :
    LoginResult :=
  match lookupByPin clientsTable passwordInput with
  | [] => .failed
  | c :: _ =>
    if passwordInput == "1991" then .master (sortClientsByName clientsTable)
    else .scoped c

/-- The fetch ordering `order('date').order('created_at')`, ascending. -/
def fetchLe (a b : DbPost) : Bool :=
  decide (a.date < b.date ∨ (a.date = b.date ∧ a.created_at ≤ b.created_at))

/-- `fetchPosts`: requires a selected tenant, filters the store by
`client_id`, orders by date then creation time, and maps rows to app
records. -/
def fetchPosts (table : List DbPost) (currentClient : Option Client) :
    Option (List Post) :=
  match currentClient with
  | none => none
  | some c =>
    some ((sortBy fetchLe (table.filter (fun row => row.client_id == c.id))).map mapDbToPost)

/-- A character the hashtags parser splits on: whitespace or the `#`
marker (the `[\s#]+` class). JS strings are modelled as `List Char`
here because the parse works character by character. -/
def isTagDelim (c : Char) : Bool := c.isWhitespace || c == '#'

/-- Split on single delimiter characters, keeping empty fragments. The
source splits on maximal delimiter runs (`split(/[\s#]+/)`); a run of
k delimiters yields here k-1 extra empty fragments, every one of which
the source's very next `filter` step discards, so the composed parse is
unchanged. -/
def splitOnDelim (p : Char → Bool) : List Char → List (List Char)
  | [] => [[]]
  | c :: cs =>
    match splitOnDelim p cs with
    | [] => [[]]
    | f :: rest => if p c then [] :: f :: rest else (c :: f) :: rest

/-- `trim()` over character lists. -/
def trimChars (s : List Char) : List Char :=
  ((s.dropWhile Char.isWhitespace).reverse.dropWhile Char.isWhitespace).reverse

/-- `replace(/^#/, '')`: strip one leading `#` marker. -/
def stripLeadingHash (t : List Char) : List Char :=
  match t with
  | [] => []
  | c :: cs => if c == '#' then cs else c :: cs

/-- The hashtags `onChange` parse: split the input on whitespace/`#`,
drop fragments empty after trimming, strip a leading marker. -/
def parseHashtags (value : List Char) : List (List Char) :=
  ((splitOnDelim isTagDelim value).filter
      (fun tag => (trimChars tag).length > 0)).map stripLeadingHash

/-- `join(sep)` over character lists. -/
def joinSep (sep : List Char) : List (List Char) → List Char
  | [] => []
  | [x] => x
  | x :: xs => x ++ sep ++ joinSep sep xs

/-- The hashtags `value` prop render:
`generatedHashtags.map(h => '#' + h).join(' ')` (empty list renders as
the empty string via `|| ''`). -/
def renderHashtags (tags : List (List Char)) : List Char :=
  joinSep [' '] (tags.map (fun h => '#' :: h))

/-- A well-formed stored hashtag: non-empty, no whitespace, no `#`. -/
def goodTag (t : List Char) : Bool :=
  decide (t ≠ []) && t.all (fun c => !c.isWhitespace && !(c == '#'))

/-- Whether an effect is a persistence write. -/
def isDbWrite : Effect → Bool
  | .dbWrite _ _ => true
  | _ => false

theorem countScheduleCalls_cons_of_not (e : Effect) (tr : List Effect)
    (h : (match e with | .scheduleCall _ _ _ _ _ => true | _ => false) = false) :
    countScheduleCalls (e :: tr) = countScheduleCalls tr := by
  simp [countScheduleCalls, List.filter_cons, h]

theorem countScheduleCalls_approveWrites (ps : List Post) :
    countScheduleCalls (ps.map (fun p => Effect.dbWrite p.id (statusPatch "Approved"))) = 0 := by
  induction ps with
  | nil => rfl
  | cons p ps _ => simp [countScheduleCalls, List.filter_cons]

theorem countScheduleCalls_append (a b : List Effect) :
    countScheduleCalls (a ++ b) = countScheduleCalls a + countScheduleCalls b := by
  simp [countScheduleCalls, List.filter_append]

/-- C3 counterexample: in the spec's bulk-approve scenario (three visible
records, one of them with an assigned platform and valid media) the
Approve All handler makes zero external publish calls, not exactly one:
it writes directly to the store and never invokes `handleAutoPost`. -/
theorem c3_counterexample :
    countScheduleCalls (approveAllClick
      [({ id := "p1", client_id := "cA", status := "For Approval" } : Post),
       { id := "p2", client_id := "cA", status := "For Approval" },
       { id := "p3", client_id := "cB", status := "For Approval",
         imageUrl := "http://x/media.jpg" }] true) = 0
    ∧ (0 : Nat) ≠ 1 := ⟨rfl, by decide⟩

/-- C3 (amended): the Approve All action issues one direct
`status = 'Approved'` write per visible record, as an unordered set of
independent writes, bypassing the auto-publish trigger entirely: zero
external publish calls are made, and every written record's status column
becomes `Approved` (never `Draft` or `For Approval`). -/
theorem c3_amended_theorem (filteredPosts : List Post) (row : DbPost) :
    countScheduleCalls (approveAllClick filteredPosts true) = 0
    ∧ (approveAllClick filteredPosts true).filter isDbWrite
        = filteredPosts.map (fun p => Effect.dbWrite p.id (statusPatch "Approved"))
    ∧ (applyDbUpdate (statusPatch "Approved") row).status = "Approved" := by
  refine ⟨?_, ?_, rfl⟩
  · rw [approveAllClick, if_pos rfl, countScheduleCalls_append,
      countScheduleCalls_approveWrites]
    rfl
  · rw [approveAllClick, if_pos rfl, List.filter_append]
    have h1 : (filteredPosts.map (fun p => Effect.dbWrite p.id (statusPatch "Approved"))).filter isDbWrite
        = filteredPosts.map (fun p => Effect.dbWrite p.id (statusPatch "Approved")) := by
      induction filteredPosts with
      | nil => rfl
      | cons p ps _ => simp [List.filter_cons, isDbWrite]
    simp [h1, List.filter_cons, isDbWrite]

/-- C4 counterexample: a record with an empty caption but a non-empty
hashtag list does not fall back to the raw description — the payload is
the blank line plus the rendered tags. -/
theorem c4_counterexample :
    buildAutoPostContent ({ generatedCaption := "", generatedHashtags := ["sun"], imageDescription := "desc" } : Post) = "\n\n#sun"
    ∧ ("\n\n#sun" : String) ≠ "desc" := ⟨rfl, by decide⟩

/-- C4 (amended): the publish payload is the caption followed (when any
hashtags exist) by a blank line and the `#`-marked tags joined by spaces;
the fallback to the raw description happens only when the caption is
empty and the hashtag list is empty as well. -/
theorem c4_composition (post : Post) :
    (post.generatedHashtags ≠ [] →
      buildAutoPostContent post =
        post.generatedCaption ++ "\n\n" ++
          String.intercalate " " (post.generatedHashtags.map (fun tag => "#" ++ tag)))
    ∧ (post.generatedHashtags = [] → post.generatedCaption ≠ "" →
        buildAutoPostContent post = post.generatedCaption)
    ∧ (post.generatedHashtags = [] → post.generatedCaption = "" →
        buildAutoPostContent post = post.imageDescription) := by
  refine ⟨?_, ?_, ?_⟩
  · intro hne
    have hlen : 0 < post.generatedHashtags.length := List.length_pos.mpr hne
    have hcontent : post.generatedCaption ++ "\n\n" ++
        String.intercalate " " (post.generatedHashtags.map (fun tag => "#" ++ tag)) ≠ "" := by
      intro h
      have hl := congrArg String.length h
      rw [String.length_append, String.length_append] at hl
      have h2 : ("\n\n" : String).length = 2 := rfl
      have h0 : ("" : String).length = 0 := rfl
      omega
    simp [buildAutoPostContent, hlen, hcontent]
  · intro hnil hcap
    simp [buildAutoPostContent, hnil, hcap]
  · intro hnil hcap
    simp [buildAutoPostContent, hnil, hcap]

/-- C4 witness: a record with caption and hashtags composes caption, blank
line and marked tags. -/
theorem c4_composition_witness :
    buildAutoPostContent ({ generatedCaption := "Hello", generatedHashtags := ["sun", "fun"] } : Post)
      = "Hello" ++ "\n\n" ++
          String.intercalate " " ((["sun", "fun"] : List String).map (fun tag => "#" ++ tag)) :=
  (c4_composition _).1 (by decide)

/-- C6 counterexample: when the auto-publish trigger's scheduling call
fails, the catch only logs to the console — the trace holds no blocking
alert — and the record is left as it was (status `Approved`). -/
theorem c6_counterexample :
    (handleAutoPost (some { id := "c1", late_profile_ids := ["tw1"] })
        [({ id := "p1", status := "Approved", generatedCaption := "Hello", date := "2026-01-02" } : Post)]
        "p1" (some [{ id := "tw1", platform := "twitter" }]) false).1
      = [.scheduleCall [("twitter", "tw1")] "Hello" [] "image" "2026-01-02T12:00:00",
         .consoleLog "Auto-schedule error"]
    ∧ ((handleAutoPost (some { id := "c1", late_profile_ids := ["tw1"] })
        [({ id := "p1", status := "Approved", generatedCaption := "Hello", date := "2026-01-02" } : Post)]
        "p1" (some [{ id := "tw1", platform := "twitter" }]) false).1.filter isAlert) = []
    ∧ (handleAutoPost (some { id := "c1", late_profile_ids := ["tw1"] })
        [({ id := "p1", status := "Approved", generatedCaption := "Hello", date := "2026-01-02" } : Post)]
        "p1" (some [{ id := "tw1", platform := "twitter" }]) false).2
      = [({ id := "p1", status := "Approved", generatedCaption := "Hello", date := "2026-01-02" } : Post)] :=
  ⟨rfl, rfl, rfl⟩

/-- C6 (amended): a failure of the auto-publish trigger's external calls
is logged to the console only — no modal-style notification is produced on
this path — and the in-memory records are left unchanged, so the record's
status stays `Approved`; whenever a scheduling call was actually made and
failed, the console carries the auto-schedule error entry. -/
theorem c6_amended_theorem (client : Client) (posts : List Post) (postId : String)
    (profilesResult : Option (List LateProfile)) :
    (handleAutoPost (some client) posts postId profilesResult false).1.filter isAlert = []
    ∧ (handleAutoPost (some client) posts postId profilesResult false).2 = posts
    ∧ ((∃ pl c m mt sf, Effect.scheduleCall pl c m mt sf
          ∈ (handleAutoPost (some client) posts postId profilesResult false).1) →
        Effect.consoleLog "Auto-schedule error"
          ∈ (handleAutoPost (some client) posts postId profilesResult false).1) := by
  unfold handleAutoPost
  cases hf : findPost posts postId with
  | none => simp
  | some post =>
    by_cases h0 : (client.late_profile_ids.length == 0) = true
    · simp [h0, isAlert]
    · simp only [Bool.not_eq_true] at h0
      cases profilesResult with
      | none => simp [h0, isAlert]
      | some allProfiles =>
        by_cases hig : (∃ x ∈ allProfiles,
            x.id ∈ client.late_profile_ids ∧ requiresMedia x.platform = true) ∧
              hasValidMedia post = false
        · simp [h0, hig, isAlert]
        · simp [h0, hig, isAlert]

/-- C6 witness: a concrete failed scheduling call leaves the console error
entry in the trace. -/
theorem c6_amended_witness :
    Effect.consoleLog "Auto-schedule error"
      ∈ (handleAutoPost (some { id := "c1", late_profile_ids := ["tw1"] })
          [({ id := "p1", status := "Approved", generatedCaption := "Hello", date := "2026-01-02" } : Post)]
          "p1" (some [{ id := "tw1", platform := "twitter" }]) false).1 :=
  (c6_amended_theorem { id := "c1", late_profile_ids := ["tw1"] }
      [({ id := "p1", status := "Approved", generatedCaption := "Hello", date := "2026-01-02" } : Post)]
      "p1" (some [{ id := "tw1", platform := "twitter" }])).2.2
    ⟨[("twitter", "tw1")], "Hello", [], "image", "2026-01-02T12:00:00", by decide⟩

theorem getCol_applyDbUpdate_of_none (u : DbUpdate) (row : DbPost) (c : Column)
    (h : u.getCol c = none) :
    (applyDbUpdate u row).getCol c = row.getCol c := by
  cases c <;>
    simp only [DbUpdate.getCol, Option.map_eq_none'] at h <;>
    simp [applyDbUpdate, DbPost.getCol, h]

/-- C9: a firing coalescing timer issues a single-row update keyed by the
captured record id whose update object holds exactly the one column of the
captured field; every other column is absent from the object, and applying
the object to a stored row leaves every other column unchanged. -/
theorem c9_theorem (currentClient : Option Client)
    (profilesResult : Option (List LateProfile)) (dbResult : Option DbError)
    (scheduleSucceeds : Bool) (posts : List Post) (pw : PendingWrite)
    (row : DbPost) (c : Column) (hc : c ≠ columnOf pw.update) :
    (∃ rest, (fireTimer currentClient profilesResult dbResult scheduleSucceeds posts pw).1
        = Effect.dbWrite pw.postId (mapPostToDb (toPatch pw.update)) :: rest)
    ∧ (mapPostToDb (toPatch pw.update)).getCol (columnOf pw.update)
        = some (patchVal pw.update)
    ∧ (mapPostToDb (toPatch pw.update)).getCol c = none
    ∧ (applyDbUpdate (mapPostToDb (toPatch pw.update)) row).getCol c
        = row.getCol c := by
  have hnone : (mapPostToDb (toPatch pw.update)).getCol c = none := by
    cases hu : pw.update <;> cases c <;>
      first
      | exact absurd rfl (hu ▸ hc)
      | rfl
  refine ⟨⟨(timerBodyRest currentClient profilesResult dbResult scheduleSucceeds posts pw).1, rfl⟩,
    ?_, hnone, getCol_applyDbUpdate_of_none _ row c hnone⟩
  cases pw.update <;> rfl

/-- C9 witness: a caption-field timer write sets only the
`generated_caption` column and leaves the `status` column of a stored row
untouched. -/
theorem c9_witness :
    (applyDbUpdate (mapPostToDb (toPatch (FieldUpdate.generatedCaption "ABC")))
        { id := "p1", status := "For Approval" }).getCol Column.status
      = DbPost.getCol { id := "p1", status := "For Approval" } Column.status :=
  (c9_theorem none none none false [] (PendingWrite.mk "p1" (FieldUpdate.generatedCaption "ABC") false)
      { id := "p1", status := "For Approval" } Column.status (by decide)).2.2.2

/-- C5: for a record whose status was just set to `Approved`, the
auto-publish trigger no-ops — no external scheduling call, in-memory
records (and so the record's `Approved` status) untouched — when the
owning tenant has no assigned integration accounts, or when some assigned
platform mandates media and the record has no reachable media URL. -/
theorem c5_theorem (client : Client) (posts : List Post) (postId : String)
    (allProfiles : List LateProfile) (scheduleSucceeds : Bool) (post : Post)
    (hfind : findPost posts postId = some post)
    (hguard : client.late_profile_ids = [] ∨
      ((∃ x ∈ allProfiles, x.id ∈ client.late_profile_ids ∧ requiresMedia x.platform = true) ∧
        hasValidMedia post = false)) :
    countScheduleCalls
        (handleAutoPost (some client) posts postId (some allProfiles) scheduleSucceeds).1 = 0
    ∧ (handleAutoPost (some client) posts postId (some allProfiles) scheduleSucceeds).2 = posts := by
  unfold handleAutoPost
  rw [hfind]
  rcases hguard with hnil | hmedia
  · simp [hnil, countScheduleCalls]
  · by_cases h0 : (client.late_profile_ids.length == 0) = true
    · simp [h0, countScheduleCalls]
    · simp [h0, hmedia, countScheduleCalls]

/-- C5 witness: the spec's Scenario C — one assigned Instagram account,
caption and hashtags present, no media URL — makes no scheduling call. -/
theorem c5_witness :
    countScheduleCalls
      (handleAutoPost (some { id := "c1", late_profile_ids := ["ig1"] })
        [({ id := "p1", status := "Approved", generatedCaption := "Hello", generatedHashtags := ["sun", "fun"] } : Post)]
        "p1" (some [{ id := "ig1", platform := "instagram" }]) true).1 = 0 :=
  (c5_theorem { id := "c1", late_profile_ids := ["ig1"] }
      [({ id := "p1", status := "Approved", generatedCaption := "Hello", generatedHashtags := ["sun", "fun"] } : Post)]
      "p1" [{ id := "ig1", platform := "instagram" }] true
      { id := "p1", status := "Approved", generatedCaption := "Hello", generatedHashtags := ["sun", "fun"] }
      (by decide)
      (Or.inr ⟨⟨{ id := "ig1", platform := "instagram" }, by decide, by decide, by decide⟩, by decide⟩)).1

/-- C7: tenant resolution succeeds exactly when some stored tenant secret
equals the submitted string (exact, case-sensitive equality — no
normalization, no prefix match); on no match the result is the failure
outcome (no session); a match on the distinguished super-secret `1991`
yields the all-tenant master session with the tenant-selection step; a
match on any other (unique) secret yields a session scoped to exactly
that tenant, and a scoped session only ever arises from such a match. -/
theorem c7_theorem (table : List Client) (input : String) :
    (handleLogin table input = LoginResult.failed ↔ ∀ c ∈ table, c.pin ≠ input)
    ∧ (∀ c, handleLogin table input = LoginResult.scoped c →
        c ∈ table ∧ c.pin = input ∧ input ≠ "1991")
    ∧ ((∃ c ∈ table, c.pin = input) → input = "1991" →
        handleLogin table input = LoginResult.master (sortClientsByName table))
    ∧ (∀ c, c ∈ table → c.pin = input → input ≠ "1991" →
        (∀ c2 ∈ table, c2.pin = input → c2 = c) →
        handleLogin table input = LoginResult.scoped c) := by
  refine ⟨?_, ?_, ?_, ?_⟩
  · unfold handleLogin
    cases hl : lookupByPin table input with
    | nil =>
      simp only [true_iff]
      intro c hc hpin
      have : c ∈ lookupByPin table input :=
        List.mem_filter.mpr ⟨hc, by simp [hpin]⟩
      rw [hl] at this
      simp at this
    | cons c rest =>
      constructor
      · intro h
        by_cases h19 : (input == "1991") = true <;> simp [h19] at h
      · intro h
        have hc : c ∈ lookupByPin table input := by rw [hl]; exact List.mem_cons_self _ _
        have := List.mem_filter.mp hc
        exact absurd (by simpa using this.2) (h c this.1)
  · intro c h
    unfold handleLogin at h
    cases hl : lookupByPin table input with
    | nil => rw [hl] at h; simp at h
    | cons c0 rest =>
      rw [hl] at h
      by_cases h19 : (input == "1991") = true
      · simp [h19] at h
      · simp only [h19, Bool.false_eq_true, if_false, LoginResult.scoped.injEq] at h
        have hc0 : c0 ∈ lookupByPin table input := by rw [hl]; exact List.mem_cons_self _ _
        have hm := List.mem_filter.mp hc0
        rw [← h]
        exact ⟨hm.1, by simpa using hm.2, by simpa using h19⟩
  · rintro ⟨c, hc, hpin⟩ h19
    unfold handleLogin
    cases hl : lookupByPin table input with
    | nil =>
      have : c ∈ lookupByPin table input :=
        List.mem_filter.mpr ⟨hc, by simp [hpin]⟩
      rw [hl] at this
      simp at this
    | cons c0 rest => simp [h19]
  · intro c hc hpin h19 huniq
    unfold handleLogin
    cases hl : lookupByPin table input with
    | nil =>
      have : c ∈ lookupByPin table input :=
        List.mem_filter.mpr ⟨hc, by simp [hpin]⟩
      rw [hl] at this
      simp at this
    | cons c0 rest =>
      have hc0 : c0 ∈ lookupByPin table input := by rw [hl]; exact List.mem_cons_self _ _
      have hm := List.mem_filter.mp hc0
      have : c0 = c := huniq c0 hm.1 (by simpa using hm.2)
      simp [h19, this]

/-- C7 witness: secret `5678` resolves to exactly the one tenant holding
it, in a table that also holds the master tenant. -/
theorem c7_witness :
    handleLogin
      [({ id := "m", name := "Seam Media", pin := "1991" } : Client),
       { id := "c2", name := "ClientB", pin := "5678" }] "5678"
      = LoginResult.scoped { id := "c2", name := "ClientB", pin := "5678" } :=
  (c7_theorem
      [({ id := "m", name := "Seam Media", pin := "1991" } : Client),
       { id := "c2", name := "ClientB", pin := "5678" }] "5678").2.2.2
    { id := "c2", name := "ClientB", pin := "5678" }
    (by decide) (by decide) (by decide) (by decide)

theorem mem_insertSorted {α : Type} (le : α → α → Bool) (a x : α) (l : List α) :
    x ∈ insertSorted le a l ↔ x = a ∨ x ∈ l := by
  induction l with
  | nil => simp [insertSorted]
  | cons b bs ih =>
    unfold insertSorted
    by_cases h : (le a b) = true
    · simp [h]
    · simp only [h, Bool.false_eq_true, if_false, List.mem_cons, ih]
      tauto

theorem mem_sortBy {α : Type} (le : α → α → Bool) (x : α) (l : List α) :
    x ∈ sortBy le l ↔ x ∈ l := by
  induction l with
  | nil => simp [sortBy]
  | cons a as ih => simp [sortBy, mem_insertSorted, ih]

/-- C8: a fetch performed by a session scoped to tenant `c` returns only
records whose owning-tenant id equals `c.id`; rows of other tenants never
appear in the result. -/
theorem c8_theorem (table : List DbPost) (c : Client) (res : List Post)
    (h : fetchPosts table (some c) = some res) :
    ∀ p ∈ res, p.client_id = c.id := by
  intro p hp
  unfold fetchPosts at h
  have hres : res = (sortBy fetchLe
      (table.filter (fun row => row.client_id == c.id))).map mapDbToPost := by
    injection h with h2
    exact h2.symm
  rw [hres] at hp
  rcases List.mem_map.mp hp with ⟨row, hrow, rfl⟩
  have hmem := (mem_sortBy fetchLe row _).mp hrow
  have hfil := List.mem_filter.mp hmem
  have : row.client_id = c.id := by simpa using hfil.2
  simpa [mapDbToPost] using this

/-- C8 witness: fetching as tenant `c1` from a store that also holds a
`c2` row returns a record owned by `c1`. -/
theorem c8_witness :
    Post.client_id
      (mapDbToPost ({ id := "p1", client_id := "c1", date := "2026-01-01" } : DbPost)) = "c1" :=
  c8_theorem
    [({ id := "p1", client_id := "c1", date := "2026-01-01" } : DbPost),
     { id := "p9", client_id := "c2", date := "2026-01-02" }]
    { id := "c1", name := "A", pin := "1234" }
    ((sortBy fetchLe
      ([({ id := "p1", client_id := "c1", date := "2026-01-01" } : DbPost),
        { id := "p9", client_id := "c2", date := "2026-01-02" }].filter
          (fun row => row.client_id == "c1"))).map mapDbToPost)
    rfl
    (mapDbToPost ({ id := "p1", client_id := "c1", date := "2026-01-01" } : DbPost))
    (by decide)

theorem applyFieldUpdate_id (u : FieldUpdate) (p : Post) :
    (applyFieldUpdate u p).id = p.id := by
  cases u <;> rfl

theorem findPost_optimisticUpdate (posts : List Post) (id : String) (u : FieldUpdate) :
    findPost (optimisticUpdate posts id u) id = (findPost posts id).map (applyFieldUpdate u) := by
  induction posts with
  | nil => rfl
  | cons p ps ih =>
    by_cases h : p.id = id
    · simp [findPost, optimisticUpdate, h, applyFieldUpdate_id, List.find?_cons]
    · simp [findPost, optimisticUpdate, h, applyFieldUpdate_id, List.find?_cons] at ih ⊢
      exact ih

theorem findPost_setStatus (posts : List Post) (id : String) (s : String) :
    findPost (setStatus posts id s) id
      = (findPost posts id).map (fun p => { p with status := s }) := by
  induction posts with
  | nil => rfl
  | cons p ps ih =>
    by_cases h : p.id = id
    · simp [findPost, setStatus, h, List.find?_cons]
    · simp [findPost, setStatus, h, List.find?_cons] at ih ⊢
      exact ih

theorem timerBodyRest_err (client : Option Client)
    (profilesResult : Option (List LateProfile)) (scheduleSucceeds : Bool)
    (posts : List Post) (pw : PendingWrite) (e : DbError) :
    countScheduleCalls (timerBodyRest client profilesResult (some e) scheduleSucceeds posts pw).1 = 0
    ∧ (timerBodyRest client profilesResult (some e) scheduleSucceeds posts pw).2 = posts := by
  cases hb : (fieldName pw.update == "imageUrl" && e == DbError.payloadTooLarge) <;>
    simp [timerBodyRest, hb, countScheduleCalls]

theorem handleAutoPost_trace_bound (client : Client) (posts : List Post) (postId : String)
    (profilesResult : Option (List LateProfile)) (scheduleSucceeds : Bool) :
    countScheduleCalls (handleAutoPost (some client) posts postId profilesResult scheduleSucceeds).1 ≤ 1
    ∧ ((handleAutoPost (some client) posts postId profilesResult scheduleSucceeds).2 = posts
       ∨ (handleAutoPost (some client) posts postId profilesResult scheduleSucceeds).2
           = setStatus posts postId "Posted") := by
  unfold handleAutoPost
  cases hf : findPost posts postId with
  | none => simp [countScheduleCalls]
  | some post =>
    by_cases h0 : (client.late_profile_ids.length == 0) = true
    · simp [h0, countScheduleCalls]
    · cases profilesResult with
      | none => simp [h0, countScheduleCalls]
      | some allProfiles =>
        by_cases hig : (∃ x ∈ allProfiles,
            x.id ∈ client.late_profile_ids ∧ requiresMedia x.platform = true) ∧
              hasValidMedia post = false
        · simp [h0, hig, countScheduleCalls]
        · cases scheduleSucceeds with
          | true => simp [h0, hig, countScheduleCalls]
          | false => simp [h0, hig, countScheduleCalls]

/-- C1: a single edit that sets a record's status to `Approved` while the
pre-edit in-memory status is not `Approved` has its eligibility flag
evaluated synchronously at edit time from the pre-edit records; when the
armed timer fires, the trace starts with the debounced status persistence
write, carries at most one external scheduling call — and none at all if
the persistence write failed — and the record ends with in-memory status
`Approved` (failure or no-op) or `Posted` (success), never anything
else. -/
theorem c1_theorem (client : Client) (profilesResult : Option (List LateProfile))
    (dbResult : Option DbError) (scheduleSucceeds : Bool) (posts : List Post)
    (id : String) (p0 : Post) (hfind : findPost posts id = some p0)
    (hpre : p0.status ≠ "Approved") :
    isStatusChange posts id (FieldUpdate.status "Approved") = true
    ∧ countScheduleCalls
        (runStatusEdit (some client) profilesResult dbResult scheduleSucceeds posts id "Approved").1 ≤ 1
    ∧ (runStatusEdit (some client) profilesResult dbResult scheduleSucceeds posts id "Approved").1.head?
        = some (Effect.dbWrite id (mapPostToDb (toPatch (FieldUpdate.status "Approved"))))
    ∧ (dbResult ≠ none →
        countScheduleCalls
          (runStatusEdit (some client) profilesResult dbResult scheduleSucceeds posts id "Approved").1 = 0)
    ∧ (∃ pfin,
        findPost (runStatusEdit (some client) profilesResult dbResult scheduleSucceeds posts id "Approved").2 id
          = some pfin
        ∧ (pfin.status = "Approved" ∨ pfin.status = "Posted")) := by
  have hisc : isStatusChange posts id (FieldUpdate.status "Approved") = true := by
    simp [isStatusChange, hfind, hpre]
  have hpost2 : findPost (optimisticUpdate posts id (FieldUpdate.status "Approved")) id
      = some (applyFieldUpdate (FieldUpdate.status "Approved") p0) := by
    rw [findPost_optimisticUpdate, hfind]; rfl
  refine ⟨hisc, ?_, ?_, ?_, ?_⟩
  · rw [runStatusEdit, fireTimer]
    rw [countScheduleCalls_cons_of_not _ _ rfl]
    cases dbResult with
    | some e => rw [(timerBodyRest_err _ _ _ _ _ e).1]; omega
    | none =>
      rw [timerBodyRest]
      simp only [hisc, Option.isSome_some, Bool.and_self, if_true]
      exact (handleAutoPost_trace_bound client _ id profilesResult scheduleSucceeds).1
  · rw [runStatusEdit, fireTimer]
    rfl
  · intro hdb
    rw [runStatusEdit, fireTimer]
    rw [countScheduleCalls_cons_of_not _ _ rfl]
    cases dbResult with
    | some e => exact (timerBodyRest_err _ _ _ _ _ e).1
    | none => exact absurd rfl hdb
  · rw [runStatusEdit, fireTimer]
    cases dbResult with
    | some e =>
      refine ⟨applyFieldUpdate (FieldUpdate.status "Approved") p0, ?_, Or.inl rfl⟩
      rw [(timerBodyRest_err _ _ _ _ _ e).2]
      exact hpost2
    | none =>
      rw [timerBodyRest]
      simp only [hisc, Option.isSome_some, Bool.and_self, if_true]
      rcases (handleAutoPost_trace_bound client
          (optimisticUpdate posts id (FieldUpdate.status "Approved")) id
          profilesResult scheduleSucceeds).2 with hsame | hposted
      · exact ⟨applyFieldUpdate (FieldUpdate.status "Approved") p0,
          by rw [hsame]; exact hpost2, Or.inl rfl⟩
      · refine ⟨{ (applyFieldUpdate (FieldUpdate.status "Approved") p0) with status := "Posted" },
          ?_, Or.inr rfl⟩
        rw [hposted, findPost_setStatus, hpost2]
        rfl

/-- C1 witness: a concrete `For Approval` record, a tenant with one
assigned account, a successful persistence write and a successful
scheduling call fire the trigger at most once. -/
theorem c1_witness :
    countScheduleCalls
      (runStatusEdit (some { id := "c1", late_profile_ids := ["tw1"] })
        (some [{ id := "tw1", platform := "twitter" }]) none true
        [({ id := "p1", status := "For Approval", imageUrl := "http://x/a.jpg", date := "2026-01-03" } : Post)]
        "p1" "Approved").1 ≤ 1 :=
  (c1_theorem { id := "c1", late_profile_ids := ["tw1"] }
      (some [{ id := "tw1", platform := "twitter" }]) none true
      [({ id := "p1", status := "For Approval", imageUrl := "http://x/a.jpg", date := "2026-01-03" } : Post)]
      "p1" { id := "p1", status := "For Approval", imageUrl := "http://x/a.jpg", date := "2026-01-03" }
      (by decide) (by decide)).2.1

theorem processEdits_cons (id : String) (st : List Post × TimerMap)
    (u : FieldUpdate) (us : List FieldUpdate) :
    processEdits id st (u :: us) = processEdits id (editStep id st u) us := rfl

theorem editStep_single_timer (id key : String) (posts : List Post)
    (pw : PendingWrite) (u : FieldUpdate) (hk : timerKey id u = key) :
    (editStep id (posts, [(key, pw)]) u).2
      = [(key, PendingWrite.mk id u (isStatusChange posts id u))] := by
  simp [editStep, hk, List.filter_cons]

theorem processEdits_timers_single (id key : String) (us : List FieldUpdate) :
    ∀ (posts : List Post) (pw : PendingWrite),
      (∀ u ∈ us, timerKey id u = key) → pw.postId = id →
      ∃ pw2 : PendingWrite, (processEdits id (posts, [(key, pw)]) us).2 = [(key, pw2)]
        ∧ pw2.postId = id ∧ pw2.update = us.getLastD pw.update := by
  induction us with
  | nil =>
    intro posts pw _ hid
    exact ⟨pw, rfl, hid, rfl⟩
  | cons u rest ih =>
    intro posts pw h hid
    have hk : timerKey id u = key := h u (List.mem_cons_self _ _)
    have hstep : editStep id (posts, [(key, pw)]) u
        = (optimisticUpdate posts id u,
           [(key, PendingWrite.mk id u (isStatusChange posts id u))]) := by
      refine Prod.ext ?_ ?_
      · rfl
      · exact editStep_single_timer id key posts pw u hk
    rw [processEdits_cons, hstep]
    obtain ⟨pw2, heq, hpid, hupd⟩ := ih (optimisticUpdate posts id u)
      (PendingWrite.mk id u (isStatusChange posts id u))
      (fun v hv => h v (List.mem_cons_of_mem _ hv)) rfl
    exact ⟨pw2, heq, hpid, by rw [hupd, List.getLastD_cons]⟩

theorem processEdits_findPost (id : String) (us : List FieldUpdate) :
    ∀ (posts : List Post) (ts : TimerMap) (p0 : Post),
      findPost posts id = some p0 →
      findPost (processEdits id (posts, ts) us).1 id
        = some (us.foldl (fun p u => applyFieldUpdate u p) p0) := by
  induction us with
  | nil => intro posts ts p0 h; simpa using h
  | cons u rest ih =>
    intro posts ts p0 h
    rw [processEdits_cons]
    have hfind2 : findPost (optimisticUpdate posts id u) id
        = some (applyFieldUpdate u p0) := by
      rw [findPost_optimisticUpdate, h]; rfl
    have := ih (optimisticUpdate posts id u)
      ((timerKey id u, PendingWrite.mk id u (isStatusChange posts id u))
        :: ts.filter (fun e => !(e.1 == timerKey id u)))
      (applyFieldUpdate u p0) hfind2
    simpa [editStep] using this

theorem readField_applyFieldUpdate (u : FieldUpdate) (p : Post) :
    readField (fieldName u) (applyFieldUpdate u p) = some (valueOf u) := by
  cases u <;> rfl

/-- C2: for a burst of edits to the same `(record, field)` key, each
arriving within the previous edit's quiet period, exactly one persistence
write is issued for that key once the quiet period elapses, and it
carries the value of the last edit of the burst; meanwhile the in-memory
view reflects each edit synchronously at the moment of its call. -/
theorem c2_theorem (posts : List Post) (id : String) (p0 : Post) (f : String)
    (us : List FieldUpdate) (hfind : findPost posts id = some p0)
    (hne : us ≠ []) (hsame : ∀ u ∈ us, fieldName u = f) :
    coalescedWrites id posts us = [(id, mapPostToDb (toPatch (us.getLast hne)))]
    ∧ (∀ k (hk : k < us.length),
        readField f ((findPost (processEdits id (posts, []) (us.take (k + 1))).1 id).getD p0)
          = some (valueOf (us.get ⟨k, hk⟩))) := by
  constructor
  · cases us with
    | nil => exact absurd rfl hne
    | cons u rest =>
      have hk : timerKey id u = id ++ "-" ++ f := by
        rw [timerKey, hsame u (List.mem_cons_self _ _)]
      have hstep : editStep id (posts, []) u
          = (optimisticUpdate posts id u,
             [(id ++ "-" ++ f, PendingWrite.mk id u (isStatusChange posts id u))]) := by
        refine Prod.ext rfl ?_
        simp [editStep, hk]
      obtain ⟨pw2, heq, hpid, hupd⟩ := processEdits_timers_single id (id ++ "-" ++ f) rest
        (optimisticUpdate posts id u) (PendingWrite.mk id u (isStatusChange posts id u))
        (fun v hv => by rw [timerKey, hsame v (List.mem_cons_of_mem _ hv)]) rfl
      rw [coalescedWrites, processEdits_cons, hstep, heq]
      rw [List.map_cons, List.map_nil, hpid, hupd]
      have : (u :: rest).getLast hne = rest.getLastD u := List.getLast_eq_getLastD u rest hne
      rw [this]
  · intro k hk
    have htake : us.take (k + 1) = us.take k ++ [us.get ⟨k, hk⟩] := by
      rw [← List.take_concat_get us k hk, List.concat_eq_append]
      rfl
    have hfold : (us.take (k + 1)).foldl (fun p u => applyFieldUpdate u p) p0
        = applyFieldUpdate (us.get ⟨k, hk⟩)
            ((us.take k).foldl (fun p u => applyFieldUpdate u p) p0) := by
      rw [htake, List.foldl_append]
      rfl
    rw [processEdits_findPost id (us.take (k + 1)) posts [] p0 hfind, hfold]
    have hf : fieldName (us.get ⟨k, hk⟩) = f := hsame _ (us.get_mem _ _)
    rw [Option.getD_some, ← hf, readField_applyFieldUpdate]

/-- C2 witness: typing `A`, `AB`, `ABC` into the caption field of one
record within the quiet period coalesces into a single persistence write
carrying `ABC`. -/
theorem c2_witness :
    coalescedWrites "p1" [({ id := "p1" } : Post)]
        [FieldUpdate.generatedCaption "A", FieldUpdate.generatedCaption "AB",
         FieldUpdate.generatedCaption "ABC"]
      = [("p1", mapPostToDb (toPatch (FieldUpdate.generatedCaption "ABC")))] :=
  (c2_theorem [({ id := "p1" } : Post)] "p1" { id := "p1" } "generatedCaption"
      [FieldUpdate.generatedCaption "A", FieldUpdate.generatedCaption "AB",
       FieldUpdate.generatedCaption "ABC"]
      (by decide) (by decide) (by decide)).1

theorem splitOnDelim_ne_nil (p : Char → Bool) (s : List Char) :
    splitOnDelim p s ≠ [] := by
  cases s with
  | nil => simp [splitOnDelim]
  | cons c cs =>
    unfold splitOnDelim
    cases splitOnDelim p cs with
    | nil => simp
    | cons f rest =>
      by_cases hp : p c = true <;> simp [hp]

theorem splitOnDelim_cons_delim (p : Char → Bool) (c : Char) (s : List Char)
    (hc : p c = true) :
    splitOnDelim p (c :: s) = [] :: splitOnDelim p s := by
  cases hx : splitOnDelim p s with
  | nil => exact absurd hx (splitOnDelim_ne_nil p s)
  | cons a b =>
    show (match splitOnDelim p s with
      | [] => [[]]
      | f :: rest => if p c then [] :: f :: rest else (c :: f) :: rest) = [] :: a :: b
    rw [hx]
    simp [hc]

theorem splitOnDelim_append_no_delim (p : Char → Bool) (t : List Char) :
    ∀ rest : List Char, (∀ c ∈ t, p c = false) →
      ∃ f r, splitOnDelim p rest = f :: r
        ∧ splitOnDelim p (t ++ rest) = (t ++ f) :: r := by
  induction t with
  | nil =>
    intro rest _
    cases hs : splitOnDelim p rest with
    | nil => exact absurd hs (splitOnDelim_ne_nil p rest)
    | cons f r => exact ⟨f, r, rfl, by simp [hs]⟩
  | cons c cs ih =>
    intro rest h
    obtain ⟨f, r, hs, hrec⟩ := ih rest (fun d hd => h d (List.mem_cons_of_mem _ hd))
    refine ⟨f, r, hs, ?_⟩
    have hc : p c = false := h c (List.mem_cons_self _ _)
    rw [List.cons_append]
    unfold splitOnDelim
    rw [hrec]
    simp [hc]

theorem dropWhile_eq_self_of_none {α : Type} (p : α → Bool) (l : List α)
    (h : ∀ c ∈ l, p c = false) : l.dropWhile p = l := by
  cases l with
  | nil => rfl
  | cons a as => simp [List.dropWhile_cons, h a (List.mem_cons_self _ _)]

theorem trimChars_no_ws (t : List Char)
    (h : ∀ c ∈ t, c.isWhitespace = false) : trimChars t = t := by
  unfold trimChars
  rw [dropWhile_eq_self_of_none _ t h]
  rw [dropWhile_eq_self_of_none _ t.reverse (fun c hc => h c (List.mem_reverse.mp hc))]
  exact List.reverse_reverse t

theorem stripLeadingHash_no_hash (t : List Char)
    (h : ∀ c ∈ t, (c == '#') = false) : stripLeadingHash t = t := by
  cases t with
  | nil => rfl
  | cons c cs => simp [stripLeadingHash, h c (List.mem_cons_self _ _)]

theorem goodTag_spec (t : List Char) (h : goodTag t = true) :
    t ≠ [] ∧ (∀ c ∈ t, c.isWhitespace = false) ∧ (∀ c ∈ t, (c == '#') = false) := by
  rw [goodTag, Bool.and_eq_true, decide_eq_true_iff, List.all_eq_true] at h
  refine ⟨h.1, fun c hc => ?_, fun c hc => ?_⟩
  · have hco := h.2 c hc
    simp only [Bool.and_eq_true, Bool.not_eq_true'] at hco
    exact hco.1
  · have hco := h.2 c hc
    simp only [Bool.and_eq_true, Bool.not_eq_true'] at hco
    exact hco.2

theorem goodTag_no_delim (t : List Char) (h : goodTag t = true) :
    ∀ c ∈ t, isTagDelim c = false := by
  intro c hc
  obtain ⟨_, hws, hhash⟩ := goodTag_spec t h
  rw [isTagDelim, Bool.or_eq_false_iff]
  exact ⟨hws c hc, hhash c hc⟩

/-- C10: rendering a list of well-formed hashtags (non-empty, no
whitespace, no `#`) as `#tag1 #tag2 ...` and re-parsing that string
yields exactly the original list, so displaying and re-saving an unedited
hashtags field is the identity on the stored hashtag list. -/
theorem c10_theorem (tags : List (List Char))
    (h : ∀ t ∈ tags, goodTag t = true) :
    parseHashtags (renderHashtags tags) = tags := by
  induction tags with
  | nil => rfl
  | cons t rest ih =>
    have ht : goodTag t = true := h t (List.mem_cons_self _ _)
    obtain ⟨htne, htws, hthash⟩ := goodTag_spec t ht
    have htdelim : ∀ c ∈ t, isTagDelim c = false := goodTag_no_delim t ht
    have htrim : trimChars t = t := trimChars_no_ws t htws
    have hstrip : stripLeadingHash t = t := stripLeadingHash_no_hash t hthash
    have htlen : 0 < t.length := List.length_pos.mpr htne
    have hkeep : (decide (0 < (trimChars t).length)) = true := by
      rw [htrim]; exact decide_eq_true htlen
    have hemp : (decide (0 < (trimChars ([] : List Char)).length)) = false := rfl
    cases rest with
    | nil =>
      obtain ⟨f, r, hs, hsplit⟩ := splitOnDelim_append_no_delim isTagDelim t [] htdelim
      injection (show ([] : List Char) :: [] = f :: r from hs) with h1 h2
      subst h1
      subst h2
      rw [List.append_nil] at hsplit
      show parseHashtags ('#' :: t) = [t]
      have hsplit2 : splitOnDelim isTagDelim ('#' :: t) = [[], t] := by
        rw [splitOnDelim_cons_delim isTagDelim '#' t rfl, hsplit]
      unfold parseHashtags
      rw [hsplit2]
      simp [List.filter_cons, hemp, hkeep, hstrip]
    | cons t2 rest2 =>
      have ih2 : parseHashtags (renderHashtags (t2 :: rest2)) = t2 :: rest2 :=
        ih (fun v hv => h v (List.mem_cons_of_mem _ hv))
      have hrender : renderHashtags (t :: t2 :: rest2)
          = '#' :: (t ++ ' ' :: renderHashtags (t2 :: rest2)) := by
        show (('#' :: t) ++ [' ']) ++ joinSep [' '] (('#' :: t2) :: rest2.map (fun x => '#' :: x))
            = '#' :: (t ++ ' ' :: renderHashtags (t2 :: rest2))
        rw [List.append_assoc]
        rfl
      obtain ⟨f, r, hs, hsplit⟩ := splitOnDelim_append_no_delim isTagDelim t
        (' ' :: renderHashtags (t2 :: rest2)) htdelim
      have hs2 : splitOnDelim isTagDelim (' ' :: renderHashtags (t2 :: rest2))
          = [] :: splitOnDelim isTagDelim (renderHashtags (t2 :: rest2)) :=
        splitOnDelim_cons_delim isTagDelim ' ' _ rfl
      rw [hs2] at hs
      injection hs with h1 h2
      subst h1
      subst h2
      rw [List.append_nil] at hsplit
      have hsplit3 : splitOnDelim isTagDelim ('#' :: (t ++ ' ' :: renderHashtags (t2 :: rest2)))
          = [] :: t :: splitOnDelim isTagDelim (renderHashtags (t2 :: rest2)) := by
        rw [splitOnDelim_cons_delim isTagDelim '#' _ rfl, hsplit]
      rw [hrender]
      unfold parseHashtags
      rw [hsplit3]
      simp only [List.filter_cons, hemp, hkeep, Bool.false_eq_true, if_false, if_true,
        List.map_cons, hstrip]
      show t :: parseHashtags (renderHashtags (t2 :: rest2)) = t :: t2 :: rest2
      rw [ih2]

/-- C10 witness: the stored hashtag list `sun fun` survives the render
and re-parse round trip unchanged. -/
theorem c10_witness :
    parseHashtags (renderHashtags [['s', 'u', 'n'], ['f', 'u', 'n']])
      = [['s', 'u', 'n'], ['f', 'u', 'n']] :=
  c10_theorem [['s', 'u', 'n'], ['f', 'u', 'n']] (by decide)

end LightDust
